import Mathlib

set_option autoImplicit false

/-!
Shallow embedding of `src/rag_processor.py` (class `RAGProcessor`) and the
parts of `src/app.py` the claims refer to.

Python values flowing through chunk metadata are modelled by `PyVal`;
Python dicts by insertion-ordered association lists (`dinsert` replaces in
place, as CPython dict assignment does).  Fallible Python calls are
modelled with `Except String`, the error string standing for `str(e)` of
the raised exception.  External services (Pinecone, Docling, Bedrock) are
modelled as oracle functions supplied through environment structures; the
orchestration logic around them is translated line by line from the source.
-/

/-- A Python value as it can occur in a document's metadata.  `obj` stands
for any other Python object: `reprStr` is what `str(v)` would return,
`isTruthy` its truth value, and `strRaises` records whether `str(v)` raises. -/
inductive PyVal where
  | str (s : String)
  | int (n : Int)
  | float (q : Rat)
  | bool (b : Bool)
  | list (xs : List PyVal)
  | dict (kvs : List (String × PyVal))
  | obj (reprStr : String) (isTruthy : Bool) (strRaises : Bool)

/-- Python truthiness (`if v:`). -/
def PyVal.truthy : PyVal → Bool
  | .str s => !s.isEmpty
  | .int n => n != 0
  | .float q => q != 0
  | .bool b => b
  | .list xs => !xs.isEmpty
  | .dict kvs => !kvs.isEmpty
  | .obj _ t _ => t

/-- `isinstance(v, str)`. -/
def PyVal.isStr : PyVal → Bool
  | .str _ => true
  | _ => false

/-- `isinstance(v, (str, int, float, bool))`. -/
def PyVal.isScalar : PyVal → Bool
  | .str _ => true
  | .int _ => true
  | .float _ => true
  | .bool _ => true
  | _ => false

/-- One hexadecimal digit, lower case (as Python's `json` module emits). -/
def hexDigit (n : Nat) : Char :=
  if n < 10 then Char.ofNat (48 + n) else Char.ofNat (87 + n)

/-- Four hexadecimal digits. -/
def hex4 (n : Nat) : String :=
  String.mk [hexDigit (n / 4096 % 16), hexDigit (n / 256 % 16),
             hexDigit (n / 16 % 16), hexDigit (n % 16)]

/-- JSON escaping of one character, `ensure_ascii` style (`json.dumps` default). -/
def jsonEscapeChar (c : Char) : String :=
  if c = '"' then "\\\""
  else if c = '\\' then "\\\\"
  else if c = '\n' then "\\n"
  else if c = '\t' then "\\t"
  else if c = '\r' then "\\r"
  else if c.toNat < 32 || c.toNat ≥ 127 then "\\u" ++ hex4 c.toNat
  else String.singleton c

/-- JSON escaping of a string body. -/
def jsonEscape (s : String) : String :=
  String.join (s.toList.map jsonEscapeChar)

/-- Python string slicing `s[:n]`: the first `n` characters.  Modelled on
the character list so that it evaluates by kernel reduction. -/
def pyTake (s : String) (n : Nat) : String :=
  String.mk (s.data.take n)

mutual
/-- `json.dumps(v)` with default options: raises on objects that are not
JSON serializable, which the embedding reports through `Except.error`. -/
def jsonDumps : PyVal → Except String String
  | .str s => .ok ("\"" ++ jsonEscape s ++ "\"")
  | .int n => .ok (toString n)
  | .float q => .ok (toString q)
  | .bool b => .ok (if b then "true" else "false")
  | .list xs =>
    match jsonDumpsList xs with
    | .ok parts => .ok ("[" ++ String.intercalate ", " parts ++ "]")
    | .error e => .error e
  | .dict kvs =>
    match jsonDumpsDict kvs with
    | .ok parts => .ok ("\x7b" ++ String.intercalate ", " parts ++ "\x7d")
    | .error e => .error e
  | .obj r _ _ => .error ("Object of type " ++ r ++ " is not JSON serializable")

def jsonDumpsList : List PyVal → Except String (List String)
  | [] => .ok []
  | v :: vs =>
    match jsonDumps v, jsonDumpsList vs with
    | .ok s, .ok rest => .ok (s :: rest)
    | .error e, _ => .error e
    | _, .error e => .error e

def jsonDumpsDict : List (String × PyVal) → Except String (List String)
  | [] => .ok []
  | (k, v) :: kvs =>
    match jsonDumps v, jsonDumpsDict kvs with
    | .ok s, .ok rest => .ok (("\"" ++ jsonEscape k ++ "\": " ++ s) :: rest)
    | .error e, _ => .error e
    | _, .error e => .error e
end

mutual
/-- Python `str(v)`.  For container values this is `repr`, approximated with
Python's bracketed syntax; an element whose `__str__`/`__repr__` raises makes
the whole call raise, reported through `Except.error`. -/
def pyStr : PyVal → Except String String
  | .str s => .ok s
  | .int n => .ok (toString n)
  | .float q => .ok (toString q)
  | .bool b => .ok (if b then "True" else "False")
  | .list xs =>
    match pyStrList xs with
    | .ok parts => .ok ("[" ++ String.intercalate ", " parts ++ "]")
    | .error e => .error e
  | .dict kvs =>
    match pyStrDict kvs with
    | .ok parts => .ok ("\x7b" ++ String.intercalate ", " parts ++ "\x7d")
    | .error e => .error e
  | .obj r _ raises => if raises then .error ("str() raised for " ++ r) else .ok r

def pyStrList : List PyVal → Except String (List String)
  | [] => .ok []
  | v :: vs =>
    match pyStr v, pyStrList vs with
    | .ok s, .ok rest => .ok (s :: rest)
    | .error e, _ => .error e
    | _, .error e => .error e

def pyStrDict : List (String × PyVal) → Except String (List String)
  | [] => .ok []
  | (k, v) :: kvs =>
    match pyStr v, pyStrDict kvs with
    | .ok s, .ok rest => .ok (("'" ++ k ++ "': " ++ s) :: rest)
    | .error e, _ => .error e
    | _, .error e => .error e
end

/-- Python dict assignment `m[k] = v`: replaces the value in place when the
key is present, otherwise appends (CPython insertion-order semantics). -/
def dinsert (m : List (String × PyVal)) (k : String) (v : PyVal) :
    List (String × PyVal) :=
  match m with
  | [] => [(k, v)]
  | (k2, v2) :: rest => if k2 = k then (k, v) :: rest else (k2, v2) :: dinsert rest k v

/-- Python dict lookup `m.get(k)`. -/
def lookupd (m : List (String × PyVal)) (k : String) : Option PyVal :=
  match m with
  | [] => none
  | (k2, v) :: rest => if k2 = k then some v else lookupd rest k

/-- The per-field coercion performed by one iteration of the loop in
`sanitize_metadata` (rag_processor.py lines 183-194):
`dl_meta` is JSON-encoded and cut at 800 characters (empty string when falsy);
scalars pass through, strings longer than 500 cut to 500 plus `"..."`;
all-string lists are cut to 10 entries; anything else becomes
`str(v)[:300]` (empty string when falsy).  An `Except.error` result models an
exception escaping the iteration. -/
def coerceField (k : String) (v : PyVal) : Except String PyVal :=
  if k = "dl_meta" then
    if v.truthy then
      match jsonDumps v with
      | .ok s => .ok (.str (pyTake s 800))
      | .error e => .error e
    else .ok (.str "")
  else if v.isScalar then
    match v with
    | .str s => .ok (.str (if s.length > 500 then pyTake s 500 ++ "..." else s))
    | w => .ok w
  else
    match v with
    | .list xs =>
      if xs.all PyVal.isStr then .ok (.list (xs.take 10))
      else if v.truthy then
        match pyStr v with
        | .ok s => .ok (.str (pyTake s 300))
        | .error e => .error e
      else .ok (.str "")
    | w =>
      if w.truthy then
        match pyStr w with
        | .ok s => .ok (.str (pyTake s 300))
        | .error e => .error e
      else .ok (.str "")

/-- The `for k, v in doc.metadata.items():` loop of `sanitize_metadata`.
The `try` block wraps the whole loop (lines 182-196), so an exception while
coercing one field ends the loop: fields already coerced are kept, the failing
field and every field after it are dropped. -/
def sanitizeItems (acc : List (String × PyVal)) :
    List (String × PyVal) → List (String × PyVal)
  | [] => acc
  | (k, v) :: rest =>
    match coerceField k v with
    | .ok w => sanitizeItems (dinsert acc k w) rest
    | .error _ => acc

/-- `sanitize_metadata(doc)` (rag_processor.py lines 175-199), as a function of
the enclosing call's `pdf_hash`, `os.path.basename(pdf_path)`, the freshly
drawn `str(uuid.uuid4())[:8]` and the document's metadata.  Returns the new
metadata mapping assigned to the document. -/
def sanitize_metadata (pdf_hash pdf_name chunk_id : String)
    (meta : List (String × PyVal)) : List (String × PyVal) :=
  sanitizeItems
    [("pdf_hash", .str pdf_hash), ("pdf_name", .str pdf_name),
     ("chunk_id", .str chunk_id)] meta

/-- The dict a pipeline step returns in Python (`{'success': ..., 'error': ...,
'message': ..., 'chunk_count': ..., 'index_name': ..., 'is_existing': ...}`),
with `none` for keys a given return site does not set. -/
structure PResult where
  success : Bool
  error : Option String := none
  message : Option String := none
  chunk_count : Option Nat := none
  index_name : Option String := none
  is_existing : Bool := false
deriving DecidableEq

/-- `max_attempts` in `process_pdf_with_exponential_backoff` (line 91). -/
def max_attempts : Nat := 5

/-- `base_delay` in `process_pdf_with_exponential_backoff` (line 92). -/
def base_delay : Rat := 2

/-- The `for attempt in range(max_attempts):` loop of
`process_pdf_with_exponential_backoff` (lines 94-126), as a recursion on the
remaining iterations (`fuel`), starting at iteration index `attempt`.
`f attempt` is the value of `self._process_pdf_single_attempt(...)` on that
iteration (`Except.error` when the call raises), `j attempt` the value
`random.uniform(0, 2)` would contribute on that iteration.  Returns the
result dict, the number of attempts executed, and the list of sleeps (in
seconds) performed between attempts. -/
def backoffGo (f : Nat → Except String PResult) (j : Nat → Rat) :
    Nat → Nat → PResult × Nat × List Rat
  | 0, _ =>
    ({ success := false,
       error := some ("Failed after " ++ toString max_attempts ++
         " attempts due to persistent errors") }, 0, [])
  | fuel + 1, attempt =>
    match f attempt with
    | .ok r =>
      if r.success then (r, 1, [])
      else if fuel = 0 then (r, 1, [])
      else
        let d := base_delay * 2 ^ attempt + j attempt
        let res := backoffGo f j fuel (attempt + 1)
        (res.1, res.2.1 + 1, d :: res.2.2)
    | .error e =>
      if fuel = 0 then
        ({ success := false,
           error := some ("Failed after " ++ toString max_attempts ++
             " attempts. Last error: " ++ e) }, 1, [])
      else
        let d := base_delay * 2 ^ attempt + j attempt
        let res := backoffGo f j fuel (attempt + 1)
        (res.1, res.2.1 + 1, d :: res.2.2)

/-- `process_pdf_with_exponential_backoff` (lines 89-126). -/
def process_pdf_with_exponential_backoff (f : Nat → Except String PResult)
    (j : Nat → Rat) : PResult × Nat × List Rat :=
  backoffGo f j max_attempts 0

/-- A langchain document: text plus metadata. -/
structure LDoc where
  page_content : String
  metadata : List (String × PyVal)

/-- Oracles for the external calls one run of `_process_pdf_single_attempt`
makes: the Docling load, the text splitter, the index cleanup (whose result
the code ignores), index creation, the readiness checks (indexed by poll
number) and the vectorstore-creation attempts (indexed by attempt number). -/
structure AttemptEnv where
  loadResult : Except String (List LDoc)
  splitFn : List LDoc → List LDoc
  cleanupOk : Bool
  createResult : Except String Unit
  readyCheck : Nat → Except String Bool
  vsAttempt : Nat → Except String Unit

/-- The readiness-polling loop (lines 223-234): check number `k` runs at
elapsed time `10*k` seconds (each iteration ends in `time.sleep(10)`), the
guard `time.time() - start_time < 300` stops after `fuel` checks.  A check
returning `ok true` breaks the loop; a check raising (`Except.error`) or
returning `ok false` lets the loop continue to the next poll. -/
def pollGo (check : Nat → Except String Bool) : Nat → Nat → Bool
  | _, 0 => false
  | k, fuel + 1 =>
    match check k with
    | .ok true => true
    | _ => pollGo check (k + 1) fuel

/-- The full readiness wait: `max_wait = 300` seconds at a 10-second
interval admits checks at elapsed times 0, 10, ..., 290 — 30 checks. -/
def waitUntilReady (check : Nat → Except String Bool) : Bool :=
  pollGo check 0 30

/-- The inner vectorstore-creation loop (lines 244-276): up to 3 attempts,
the first success returns the overall success dict, failure of the 3rd
attempt returns the vectorstore failure dict.  (The final iteration always
returns, so the loop never falls through.) -/
def vectorstoreLoop (vs : Nat → Except String Unit) (chunkCount : Nat)
    (index_name : String) : PResult :=
  match vs 0 with
  | .ok _ => { success := true, chunk_count := some chunkCount, index_name := some index_name }
  | .error _ =>
    match vs 1 with
    | .ok _ => { success := true, chunk_count := some chunkCount, index_name := some index_name }
    | .error _ =>
      match vs 2 with
      | .ok _ => { success := true, chunk_count := some chunkCount, index_name := some index_name }
      | .error e =>
        { success := false,
          error := some ("Failed to create vectorstore after 3 attempts: " ++ e) }

/-- `_process_pdf_single_attempt` (lines 128-284), as a function of the
oracle environment, the call parameters, the timestamp used in the index
name, and the stream of fresh chunk ids consumed by `sanitize_metadata`.
Every exception path of the Python code is caught inside the function, so
the embedding is total: the function always returns a result dict. -/
def _process_pdf_single_attempt (env : AttemptEnv) (pdf_hash pdf_name : String)
    (timestamp : Nat) (chunkIds : Nat → String) : PResult :=
  let index_name := "pdf-" ++ pdf_hash ++ "-" ++ toString timestamp
  match env.loadResult with
  | .error e => { success := false, error := some ("Failed to load PDF document: " ++ e) }
  | .ok docs =>
    if docs.isEmpty then
      { success := false,
        error := some "No content could be extracted from the PDF. Please check if the PDF is readable." }
    else
      let split_docs := env.splitFn docs
      if split_docs.isEmpty then
        { success := false,
          error := some "No text chunks could be created from the PDF content." }
      else
        let sanitized := split_docs.enum.map fun (i, d) =>
          { d with metadata := sanitize_metadata pdf_hash pdf_name (chunkIds i) d.metadata }
        let _ := env.cleanupOk
        match env.createResult with
        | .error e =>
          { success := false, error := some ("Failed to create Pinecone index: " ++ e) }
        | .ok _ =>
          if waitUntilReady env.readyCheck then
            vectorstoreLoop env.vsAttempt sanitized.length index_name
          else
            { success := false,
              error := some "Failed to create Pinecone index: Index creation timeout after 300 seconds" }

/-- Oracles for the Pinecone calls `is_pdf_processed`, `process_pdf` and
`get_answer` make: the index listing (names), per-index stats
(`total_vector_count`, `Except.error` when the index is unreachable) and
opening a `PineconeVectorStore` handle on a named index. -/
structure PineconeEnv where
  listResult : Except String (List String)
  statsOf : String → Except String Nat
  openVS : String → Except String Unit

/-- Python's `name.startswith(prefix)`, modelled on the character list so
that it evaluates by kernel reduction. -/
def pyStartsWith (s pfx : String) : Bool :=
  pfx.data.isPrefixOf s.data

/-- The scan loop of `is_pdf_processed` (lines 49-59): for each listed name
with the prefix, read its stats; a positive vector count returns `true` at
once, a zero count or an exception while accessing the index skips that
candidate and the scan continues. -/
def scanIndexes (statsOf : String → Except String Nat) (pfx : String) :
    List String → Bool
  | [] => false
  | name :: rest =>
    if pyStartsWith name pfx then
      match statsOf name with
      | .ok c => if c > 0 then true else scanIndexes statsOf pfx rest
      | .error _ => scanIndexes statsOf pfx rest
    else scanIndexes statsOf pfx rest

/-- `is_pdf_processed` (lines 44-63): an exception from `list_indexes()`
itself is caught and yields `false`. -/
def is_pdf_processed (env : PineconeEnv) (pdf_hash : String) : Bool :=
  match env.listResult with
  | .ok names => scanIndexes env.statsOf ("pdf-" ++ pdf_hash) names
  | .error _ => false

/-- The `for index_info in all_indexes:` search used by `process_pdf`
(lines 301-304) and `get_answer` (lines 354-358): the first listed name
with the given prefix. -/
def firstMatching (names : List String) (pfx : String) : Option String :=
  names.find? (fun n => pyStartsWith n pfx)

/-- `process_pdf` (lines 286-339).  `f`/`j` parameterize the backoff pipeline
it may fall through to, exactly as in `process_pdf_with_exponential_backoff`.
The second component is `none` when the backoff pipeline was never entered
(the already-processed short circuit), and `some (attempts, delays)` — the
pipeline's retry trace — when it ran. -/
def process_pdf (env : PineconeEnv) (f : Nat → Except String PResult)
    (j : Nat → Rat) (pdf_hash : String) : PResult × Option (Nat × List Rat) :=
  if is_pdf_processed env pdf_hash then
    match env.listResult with
    | .error e =>
      ({ success := false, error := some ("Critical processing failure: " ++ e) }, none)
    | .ok names =>
      match firstMatching names ("pdf-" ++ pdf_hash) with
      | some matching =>
        match env.openVS matching with
        | .ok _ =>
          ({ success := true, message := some "PDF already processed",
             chunk_count := some 0, is_existing := true }, none)
        | .error _ =>
          let res := process_pdf_with_exponential_backoff f j
          (res.1, some res.2)
      | none =>
        let res := process_pdf_with_exponential_backoff f j
        (res.1, some res.2)
  else
    let res := process_pdf_with_exponential_backoff f j
    (res.1, some res.2)

/-- One entry of the `sources` list `get_answer` builds (lines 434-438). -/
structure SourceEntry where
  content : String
  metadata : List (String × PyVal)

/-- The dict `get_answer` returns. -/
structure AnswerResult where
  success : Bool
  answer : Option String := none
  sources : List SourceEntry := []
  error : Option String := none

/-- Oracles for one `get_answer` call: whether the hash is already in
`self.vectorstores`, the Pinecone calls, and the retrieval chain invocation
(answer text plus the `context` document list, which the response dict may
lack — `none` models a response without a `'context'` key). -/
structure AnswerEnv where
  cachedVS : Bool
  pinecone : PineconeEnv
  chainResult : Except String (String × Option (List LDoc))

/-- The source-extraction loop of `get_answer` (lines 432-438):
`for doc in response['context'][:3]:` appends
`{'content': doc.page_content[:200] + "...", 'metadata': doc.metadata}`.
The `"..."` is appended unconditionally. -/
def extractSources (context : List LDoc) : List SourceEntry :=
  (context.take 3).map fun d =>
    { content := pyTake d.page_content 200 ++ "...", metadata := d.metadata }

/-- `get_answer` (lines 341-458). -/
def get_answer (env : AnswerEnv) (pdf_hash : String) : AnswerResult :=
  let runChain : AnswerResult :=
    match env.chainResult with
    | .ok (ans, ctx) =>
      { success := true, answer := some ans,
        sources := match ctx with | some docs => extractSources docs | none => [] }
    | .error e => { success := false, error := some ("Failed to generate answer: " ++ e) }
  if env.cachedVS then runChain
  else
    match env.pinecone.listResult with
    | .error e => { success := false, error := some ("Failed to generate answer: " ++ e) }
    | .ok names =>
      match firstMatching names ("pdf-" ++ pdf_hash) with
      | none =>
        { success := false,
          error := some "PDF not processed or index not found. Please upload and process the PDF first." }
      | some matching =>
        match env.pinecone.openVS matching with
        | .error e => { success := false, error := some ("Failed to load vectorstore: " ++ e) }
        | .ok _ => runChain

/-! ### The retry/backoff controller (claims C1, C4) -/

/-- An attempt counts as failed when it returns a result dict with
`success == False` or raises. -/
def attemptFailed (x : Except String PResult) : Bool :=
  match x with
  | .ok r => !r.success
  | .error _ => true

theorem backoffGo_success (f : Nat → Except String PResult) (j : Nat → Rat)
    (fuel a : Nat) (r : PResult) (hf : f a = .ok r) (hr : r.success = true) :
    backoffGo f j (fuel + 1) a = (r, 1, []) := by
  simp [backoffGo, hf, hr]

theorem backoffGo_last_fail (f : Nat → Except String PResult) (j : Nat → Rat)
    (a : Nat) (r : PResult) (hf : f a = .ok r) (hr : r.success = false) :
    backoffGo f j 1 a = (r, 1, []) := by
  simp [backoffGo, hf, hr]

theorem backoffGo_fail_step (f : Nat → Except String PResult) (j : Nat → Rat)
    (fuel a : Nat) (hfuel : fuel ≠ 0) (hf : attemptFailed (f a) = true) :
    backoffGo f j (fuel + 1) a =
      ((backoffGo f j fuel (a + 1)).1, (backoffGo f j fuel (a + 1)).2.1 + 1,
        (base_delay * 2 ^ a + j a) :: (backoffGo f j fuel (a + 1)).2.2) := by
  cases hfa : f a with
  | ok r =>
    rw [hfa] at hf
    simp only [attemptFailed, Bool.not_eq_true'] at hf
    simp [backoffGo, hfa, hf, hfuel]
  | error e =>
    simp [backoffGo, hfa, hfuel]

theorem backoffGo_reach (f : Nat → Except String PResult) (j : Nat → Rat)
    (r : PResult) (hr : r.success = true) :
    ∀ (k a fuel : Nat), k < fuel →
      (∀ i, i < k → attemptFailed (f (a + i)) = true) →
      f (a + k) = .ok r →
      backoffGo f j fuel a =
        (r, k + 1, (List.range k).map (fun i => base_delay * 2 ^ (a + i) + j (a + i))) := by
  intro k
  induction k with
  | zero =>
    intro a fuel hlt _ hok
    obtain ⟨m, rfl⟩ : ∃ m, fuel = m + 1 := ⟨fuel - 1, by omega⟩
    simpa using backoffGo_success f j m a r (by simpa using hok) hr
  | succ k ih =>
    intro a fuel hlt hfail hok
    obtain ⟨m, rfl⟩ : ∃ m, fuel = m + 1 := ⟨fuel - 1, by omega⟩
    have hm : m ≠ 0 := by omega
    rw [backoffGo_fail_step f j m a hm (by simpa using hfail 0 (by omega))]
    rw [ih (a + 1) m (by omega)
      (fun i hi => by
        have := hfail (i + 1) (by omega)
        rwa [show a + (i + 1) = a + 1 + i from by omega] at this)
      (by rwa [show a + 1 + k = a + (k + 1) from by omega])]
    simp only [List.range_succ_eq_map, List.map_cons, List.map_map, Prod.mk.injEq]
    refine ⟨trivial, trivial, ?_⟩
    rw [Nat.add_zero]
    refine congrArg (fun l => _ :: l) ?_
    apply List.map_congr_left
    intro i _
    simp only [Function.comp]
    rw [show a + 1 + i = a + (i + 1) from by omega]

theorem backoffGo_allFail (f : Nat → Except String PResult) (j : Nat → Rat)
    (r : Nat → PResult) :
    ∀ (fuel a : Nat), fuel ≠ 0 →
      (∀ i, i < fuel → f (a + i) = .ok (r (a + i)) ∧ (r (a + i)).success = false) →
      backoffGo f j fuel a =
        (r (a + (fuel - 1)), fuel,
          (List.range (fuel - 1)).map (fun i => base_delay * 2 ^ (a + i) + j (a + i))) := by
  intro fuel
  induction fuel with
  | zero => intro a h; exact absurd rfl h
  | succ m ih =>
    intro a _ hfail
    by_cases hm : m = 0
    · subst hm
      obtain ⟨h0, h0s⟩ := hfail 0 (by omega)
      rw [Nat.add_zero] at h0 h0s
      simpa using backoffGo_last_fail f j a (r a) h0 h0s
    · obtain ⟨h0, h0s⟩ := hfail 0 (by omega)
      rw [Nat.add_zero] at h0 h0s
      rw [backoffGo_fail_step f j m a hm (by simp [attemptFailed, h0, h0s])]
      rw [ih (a + 1) hm
        (fun i hi => by
          have := hfail (i + 1) (by omega)
          rwa [show a + (i + 1) = a + 1 + i from by omega] at this)]
      obtain ⟨p, rfl⟩ : ∃ p, m = p + 1 := ⟨m - 1, by omega⟩
      simp only [Nat.add_sub_cancel]
      simp only [Prod.mk.injEq]
      refine ⟨by rw [show a + 1 + p = a + (p + 1) from by omega], trivial, ?_⟩
      simp only [List.range_succ_eq_map, List.map_cons, List.map_map]
      rw [Nat.add_zero]
      refine congrArg (fun l => _ :: l) ?_
      apply List.map_congr_left
      intro i _
      simp only [Function.comp]
      rw [show a + 1 + i = a + (i + 1) from by omega]

/-- The input-error result for an unreadable PDF (lines 143-146). -/
def noContentR : PResult :=
  { success := false,
    error := some "No content could be extracted from the PDF. Please check if the PDF is readable." }

/-- The input-error result for an empty split (lines 166-169). -/
def noChunksR : PResult :=
  { success := false,
    error := some "No text chunks could be created from the PDF content." }

/-- C1: the outer retry controller makes at most 5 attempts; a successful
attempt (preceded by `k` failed ones, `k < 5`) short-circuits the rest and
its result is returned after `k + 1` attempts; if every attempt returns a
failure result, exactly 5 attempts happen and the 5th result — hence its
error — is returned verbatim; the delay slept before attempt `n` (the
`(n-2)`-nd element of the delay list, attempts 1-indexed) is
`base_delay * 2 ^ (n-2) + j (n-2)` with `base_delay = 2`, which lies in
`[2 * 2^(n-2), 2 * 2^(n-2) + 2)` whenever the jitter `j` drawn by
`random.uniform(0, 2)` lies in `[0, 2)`. -/
theorem claim1_retry_backoff_controller (f : Nat → Except String PResult) (j : Nat → Rat) :
    (∀ k r, k < 5 → (∀ i, i < k → attemptFailed (f i) = true) →
        f k = .ok r → r.success = true →
        process_pdf_with_exponential_backoff f j =
          (r, k + 1, (List.range k).map (fun i => base_delay * 2 ^ i + j i))) ∧
    (∀ r : Nat → PResult,
        (∀ i, i < 5 → f i = .ok (r i) ∧ (r i).success = false) →
        process_pdf_with_exponential_backoff f j =
          (r 4, 5, (List.range 4).map (fun i => base_delay * 2 ^ i + j i))) ∧
    (∀ i, 0 ≤ j i → j i < 2 →
        base_delay * 2 ^ i ≤ base_delay * 2 ^ i + j i ∧
        base_delay * 2 ^ i + j i < base_delay * 2 ^ i + 2) := by
  refine ⟨?_, ?_, ?_⟩
  · intro k r hk hfail hok hs
    have h := backoffGo_reach f j r hs k 0 5 hk (by simpa using hfail) (by simpa using hok)
    simpa [process_pdf_with_exponential_backoff, max_attempts] using h
  · intro r hfail
    have h := backoffGo_allFail f j r 5 0 (by omega) (by simpa using hfail)
    simpa [process_pdf_with_exponential_backoff, max_attempts] using h
  · intro i h0 h2
    constructor
    · linarith
    · linarith

/-- A transient failure result used as a concrete witness input. -/
def transientR : PResult := { success := false, error := some "simulated transient failure" }

/-- A success result used as a concrete witness input. -/
def successR : PResult :=
  { success := true, chunk_count := some 7, index_name := some "pdf-x-1" }

/-- Witness attempt function that fails twice then succeeds. -/
def wFailTwice : Nat → Except String PResult :=
  fun i => if i < 2 then .ok transientR else .ok successR

/-- Witness attempt function that always fails. -/
def wAlwaysFail : Nat → Except String PResult := fun _ => .ok transientR

theorem claim1_retry_backoff_controller_witness :
    process_pdf_with_exponential_backoff wFailTwice (fun _ => 1) = (successR, 3, [3, 5]) ∧
    process_pdf_with_exponential_backoff wAlwaysFail (fun _ => 0) = (transientR, 5, [2, 4, 8, 16]) ∧
    (base_delay * 2 ^ 3 ≤ base_delay * 2 ^ 3 + (1 : Rat) ∧
      base_delay * 2 ^ 3 + (1 : Rat) < base_delay * 2 ^ 3 + 2) := by
  refine ⟨?_, ?_, ?_⟩
  · exact ((claim1_retry_backoff_controller wFailTwice (fun _ => 1)).1 2 successR
      (by omega) (by decide) rfl rfl).trans (by norm_num [List.range_succ, base_delay])
  · exact ((claim1_retry_backoff_controller wAlwaysFail (fun _ => 0)).2.1
      (fun _ => transientR) (fun i _ => ⟨rfl, rfl⟩)).trans (by norm_num [List.range_succ, base_delay])
  · exact (claim1_retry_backoff_controller wAlwaysFail (fun _ => 1)).2.2 3
      (by norm_num) (by norm_num)

/-- C4 (amended): a document from which no content can be extracted, or from
which no text chunks can be created, is surfaced by the single attempt as an
immediate failure result — but the outer retry controller does not
distinguish input errors from transient ones: it retries them like any other
failure, making all 5 attempts and returning the input-error result of the
final attempt. -/
theorem claim4_input_errors_are_retried (env : AttemptEnv) (h n : String)
    (ts : Nat) (cids : Nat → String) (j : Nat → Rat) :
    (env.loadResult = .ok [] →
      _process_pdf_single_attempt env h n ts cids = noContentR ∧
      process_pdf_with_exponential_backoff
          (fun _ => .ok (_process_pdf_single_attempt env h n ts cids)) j =
        (noContentR, 5, (List.range 4).map (fun i => base_delay * 2 ^ i + j i))) ∧
    (∀ docs, env.loadResult = .ok docs → docs ≠ [] → env.splitFn docs = [] →
      _process_pdf_single_attempt env h n ts cids = noChunksR ∧
      process_pdf_with_exponential_backoff
          (fun _ => .ok (_process_pdf_single_attempt env h n ts cids)) j =
        (noChunksR, 5, (List.range 4).map (fun i => base_delay * 2 ^ i + j i))) := by
  constructor
  · intro hload
    have hsingle : _process_pdf_single_attempt env h n ts cids = noContentR := by
      simp [_process_pdf_single_attempt, hload, noContentR]
    refine ⟨hsingle, ?_⟩
    have hb := backoffGo_allFail (fun _ => .ok noContentR) j (fun _ => noContentR) 5 0
      (by omega) (fun i _ => ⟨rfl, rfl⟩)
    rw [hsingle]
    simpa [process_pdf_with_exponential_backoff, max_attempts] using hb
  · intro docs hload hne hsplit
    have hsingle : _process_pdf_single_attempt env h n ts cids = noChunksR := by
      simp [_process_pdf_single_attempt, hload, hne, hsplit, noChunksR,
        List.isEmpty_iff]
    refine ⟨hsingle, ?_⟩
    have hb := backoffGo_allFail (fun _ => .ok noChunksR) j (fun _ => noChunksR) 5 0
      (by omega) (fun i _ => ⟨rfl, rfl⟩)
    rw [hsingle]
    simpa [process_pdf_with_exponential_backoff, max_attempts] using hb

/-- Witness environment: the Docling load yields no documents. -/
def c4Env : AttemptEnv :=
  { loadResult := .ok [], splitFn := id, cleanupOk := true,
    createResult := .ok (), readyCheck := fun _ => .ok true,
    vsAttempt := fun _ => .ok () }

/-- Witness environment: the load yields one document but the splitter
produces no chunks. -/
def c4EnvSplit : AttemptEnv :=
  { loadResult := .ok [{ page_content := "x", metadata := [] }],
    splitFn := fun _ => [], cleanupOk := true,
    createResult := .ok (), readyCheck := fun _ => .ok true,
    vsAttempt := fun _ => .ok () }

theorem claim4_input_errors_are_retried_witness :
    (_process_pdf_single_attempt c4Env "deadbeef" "doc.pdf" 17 (fun _ => "abcd1234") = noContentR ∧
      process_pdf_with_exponential_backoff
          (fun _ => .ok (_process_pdf_single_attempt c4Env "deadbeef" "doc.pdf" 17 (fun _ => "abcd1234")))
          (fun _ => 0) =
        (noContentR, 5, [2, 4, 8, 16])) ∧
    (_process_pdf_single_attempt c4EnvSplit "deadbeef" "doc.pdf" 17 (fun _ => "abcd1234") = noChunksR ∧
      process_pdf_with_exponential_backoff
          (fun _ => .ok (_process_pdf_single_attempt c4EnvSplit "deadbeef" "doc.pdf" 17 (fun _ => "abcd1234")))
          (fun _ => 0) =
        (noChunksR, 5, [2, 4, 8, 16])) := by
  constructor
  · have h := (claim4_input_errors_are_retried c4Env "deadbeef" "doc.pdf" 17
      (fun _ => "abcd1234") (fun _ => 0)).1 rfl
    exact ⟨h.1, h.2.trans (by norm_num [List.range_succ, base_delay])⟩
  · have h := (claim4_input_errors_are_retried c4EnvSplit "deadbeef" "doc.pdf" 17
      (fun _ => "abcd1234") (fun _ => 0)).2
      [{ page_content := "x", metadata := [] }] rfl (by simp) rfl
    exact ⟨h.1, h.2.trans (by norm_num [List.range_succ, base_delay])⟩

/-- C4 counterexample: with a PDF from which no content can be extracted,
the single attempt returns the input-error result, yet the retry controller
performs 5 attempts, not 1 — input errors are not exempted from retry. -/
theorem claim4_counterexample :
    (process_pdf_with_exponential_backoff
        (fun _ => .ok (_process_pdf_single_attempt c4Env "deadbeef" "doc.pdf" 17 (fun _ => "abcd1234")))
        (fun _ => 0)).2.1 = 5 ∧
    (process_pdf_with_exponential_backoff
        (fun _ => .ok (_process_pdf_single_attempt c4Env "deadbeef" "doc.pdf" 17 (fun _ => "abcd1234")))
        (fun _ => 0)).2.1 ≠ 1 ∧
    (process_pdf_with_exponential_backoff
        (fun _ => .ok (_process_pdf_single_attempt c4Env "deadbeef" "doc.pdf" 17 (fun _ => "abcd1234")))
        (fun _ => 0)).1 = noContentR := by
  refine ⟨rfl, by decide, rfl⟩

/-! ### Readiness polling (claim C8) and the processed check (claim C6) -/

theorem pollGo_true_iff (check : Nat → Except String Bool) :
    ∀ (fuel k : Nat),
      pollGo check k fuel = true ↔ ∃ i, i < fuel ∧ check (k + i) = .ok true := by
  intro fuel
  induction fuel with
  | zero => intro k; simp [pollGo]
  | succ m ih =>
    intro k
    cases hc : check k with
    | ok b =>
      cases b
      · rw [show pollGo check k (m + 1) = pollGo check (k + 1) m from by
          simp [pollGo, hc]]
        rw [ih (k + 1)]
        constructor
        · rintro ⟨i, hi, hok⟩
          exact ⟨i + 1, by omega, by rwa [show k + (i + 1) = k + 1 + i from by omega]⟩
        · rintro ⟨i, hi, hok⟩
          match i with
          | 0 => rw [Nat.add_zero] at hok; rw [hok] at hc; simp at hc
          | i + 1 =>
            exact ⟨i, by omega, by rwa [show k + 1 + i = k + (i + 1) from by omega]⟩
      · constructor
        · intro _; exact ⟨0, by omega, by rwa [Nat.add_zero]⟩
        · intro _; simp [pollGo, hc]
    | error e =>
      rw [show pollGo check k (m + 1) = pollGo check (k + 1) m from by
        simp [pollGo, hc]]
      rw [ih (k + 1)]
      constructor
      · rintro ⟨i, hi, hok⟩
        exact ⟨i + 1, by omega, by rwa [show k + (i + 1) = k + 1 + i from by omega]⟩
      · rintro ⟨i, hi, hok⟩
        match i with
        | 0 => rw [Nat.add_zero] at hok; rw [hok] at hc; simp at hc
        | i + 1 =>
          exact ⟨i, by omega, by rwa [show k + 1 + i = k + (i + 1) from by omega]⟩

/-- C8: after issuing index creation the attempt polls readiness at a
10-second interval under the 300-second guard — 30 checks at elapsed times
0, 10, ..., 290.  The wait succeeds exactly when some check within the bound
reports ready (a check that raises only skips that poll; the loop
continues), in which case the attempt proceeds to the vectorstore phase;
when no check within the bound reports ready, the attempt returns the
timeout failure result. -/
theorem claim8_readiness_polling (env : AttemptEnv) (h n : String) (ts : Nat)
    (cids : Nat → String) (docs : List LDoc)
    (hload : env.loadResult = .ok docs) (hne : docs ≠ [])
    (hsplit : env.splitFn docs ≠ []) (hcreate : env.createResult = .ok ()) :
    (waitUntilReady env.readyCheck = true ↔
      ∃ i, i < 30 ∧ env.readyCheck i = .ok true) ∧
    ((∃ i, i < 30 ∧ env.readyCheck i = .ok true) →
      _process_pdf_single_attempt env h n ts cids =
        vectorstoreLoop env.vsAttempt (env.splitFn docs).length
          ("pdf-" ++ h ++ "-" ++ toString ts)) ∧
    ((∀ i, i < 30 → env.readyCheck i ≠ .ok true) →
      _process_pdf_single_attempt env h n ts cids =
        { success := false,
          error := some "Failed to create Pinecone index: Index creation timeout after 300 seconds" }) := by
  have hiff : waitUntilReady env.readyCheck = true ↔
      ∃ i, i < 30 ∧ env.readyCheck i = .ok true := by
    rw [waitUntilReady, pollGo_true_iff env.readyCheck 30 0]
    simp
  refine ⟨hiff, ?_, ?_⟩
  · intro hex
    have hw : waitUntilReady env.readyCheck = true := hiff.mpr hex
    simp [_process_pdf_single_attempt, hload, hne, hsplit, hcreate, hw,
      List.isEmpty_iff]
  · intro hnone
    have hw : waitUntilReady env.readyCheck = false := by
      rw [Bool.eq_false_iff]
      intro htrue
      obtain ⟨i, hi, hok⟩ := hiff.mp htrue
      exact hnone i hi hok
    simp [_process_pdf_single_attempt, hload, hne, hsplit, hcreate, hw,
      List.isEmpty_iff]

/-- A one-document load used by witnesses. -/
def docW : LDoc := { page_content := "hello", metadata := [] }

/-- Witness environment: the readiness check raises on poll 0, reports
not-ready on poll 1, and reports ready on poll 2 (the spec's mock that
becomes ready on the 3rd check). -/
def c8EnvReady : AttemptEnv :=
  { loadResult := .ok [docW], splitFn := id, cleanupOk := true,
    createResult := .ok (),
    readyCheck := fun k =>
      if k = 0 then .error "transient describe failure"
      else if k = 1 then .ok false
      else if k = 2 then .ok true
      else .ok false,
    vsAttempt := fun _ => .ok () }

/-- Witness environment: the readiness check never reports ready. -/
def c8EnvNever : AttemptEnv :=
  { loadResult := .ok [docW], splitFn := id, cleanupOk := true,
    createResult := .ok (), readyCheck := fun _ => .ok false,
    vsAttempt := fun _ => .ok () }

theorem claim8_readiness_polling_witness :
    waitUntilReady c8EnvReady.readyCheck = true ∧
    _process_pdf_single_attempt c8EnvReady "deadbeef" "doc.pdf" 17 (fun _ => "abcd1234") =
      { success := true, chunk_count := some 1, index_name := some "pdf-deadbeef-17" } ∧
    _process_pdf_single_attempt c8EnvNever "deadbeef" "doc.pdf" 17 (fun _ => "abcd1234") =
      { success := false,
        error := some "Failed to create Pinecone index: Index creation timeout after 300 seconds" } := by
  refine ⟨?_, ?_, ?_⟩
  · exact (claim8_readiness_polling c8EnvReady "deadbeef" "doc.pdf" 17
      (fun _ => "abcd1234") [docW] rfl (by simp) (by simp [c8EnvReady]) rfl).1.mpr
      ⟨2, by omega, rfl⟩
  · exact ((claim8_readiness_polling c8EnvReady "deadbeef" "doc.pdf" 17
      (fun _ => "abcd1234") [docW] rfl (by simp) (by simp [c8EnvReady]) rfl).2.1
      ⟨2, by omega, rfl⟩).trans (by decide)
  · exact (claim8_readiness_polling c8EnvNever "deadbeef" "doc.pdf" 17
      (fun _ => "abcd1234") [docW] rfl (by simp) (by simp [c8EnvNever]) rfl).2.2
      (fun i _ => by simp [c8EnvNever])

theorem scanIndexes_true_iff (st : String → Except String Nat) (pfx : String) :
    ∀ names, scanIndexes st pfx names = true ↔
      ∃ nm, nm ∈ names ∧ pyStartsWith nm pfx = true ∧ ∃ c, st nm = .ok c ∧ 0 < c := by
  intro names
  induction names with
  | nil => simp [scanIndexes]
  | cons nm rest ih =>
    by_cases hp : pyStartsWith nm pfx = true
    · cases hst : st nm with
      | ok c =>
        by_cases hc : c > 0
        · simp only [scanIndexes, hp, if_true, hst, hc]
          constructor
          · intro _; exact ⟨nm, by simp, hp, c, hst, hc⟩
          · intro _; trivial
        · have hc0 : c = 0 := by omega
          simp only [scanIndexes, hp, if_true, hst, if_neg hc]
          rw [ih]
          constructor
          · rintro ⟨x, hx, hxp, d, hd, hdpos⟩
            exact ⟨x, by simp [hx], hxp, d, hd, hdpos⟩
          · rintro ⟨x, hx, hxp, d, hd, hdpos⟩
            rcases List.mem_cons.mp hx with rfl | hx2
            · rw [hst] at hd
              obtain rfl : c = d := by simpa using hd
              omega
            · exact ⟨x, hx2, hxp, d, hd, hdpos⟩
      | error e =>
        simp only [scanIndexes, hp, if_true, hst]
        rw [ih]
        constructor
        · rintro ⟨x, hx, hxp, d, hd, hdpos⟩
          exact ⟨x, by simp [hx], hxp, d, hd, hdpos⟩
        · rintro ⟨x, hx, hxp, d, hd, hdpos⟩
          rcases List.mem_cons.mp hx with rfl | hx2
          · rw [hst] at hd; simp at hd
          · exact ⟨x, hx2, hxp, d, hd, hdpos⟩
    · rw [show scanIndexes st pfx (nm :: rest) = scanIndexes st pfx rest from by
        simp [scanIndexes, hp]]
      rw [ih]
      constructor
      · rintro ⟨x, hx, hxp, d, hd, hdpos⟩
        exact ⟨x, by simp [hx], hxp, d, hd, hdpos⟩
      · rintro ⟨x, hx, hxp, d, hd, hdpos⟩
        rcases List.mem_cons.mp hx with rfl | hx2
        · exact absurd hxp hp
        · exact ⟨x, hx2, hxp, d, hd, hdpos⟩

/-- C6: when the index listing succeeds, `is_pdf_processed(hash)` returns
`true` exactly when some listed index whose name starts with `pdf-{hash}`
is reachable (its stats call succeeds) and reports a positive vector count.
In particular a candidate whose stats call raises, or which reports zero
vectors, is skipped and the scan continues. -/
theorem claim6_is_pdf_processed (env : PineconeEnv) (h : String)
    (names : List String) (hlist : env.listResult = .ok names) :
    is_pdf_processed env h = true ↔
      ∃ nm, nm ∈ names ∧ pyStartsWith nm ("pdf-" ++ h) = true ∧
        ∃ c, env.statsOf nm = .ok c ∧ 0 < c := by
  rw [show is_pdf_processed env h = scanIndexes env.statsOf ("pdf-" ++ h) names from by
    simp [is_pdf_processed, hlist]]
  exact scanIndexes_true_iff env.statsOf ("pdf-" ++ h) names

/-- Witness environment: the first candidate index is unreachable, the
second reports 42 vectors, a third index does not match the prefix. -/
def c6Env : PineconeEnv :=
  { listResult := .ok ["pdf-deadbeef-1", "pdf-deadbeef-2", "other-index"],
    statsOf := fun nm =>
      if nm = "pdf-deadbeef-1" then .error "index unreachable"
      else if nm = "pdf-deadbeef-2" then .ok 42
      else .ok 0,
    openVS := fun _ => .ok () }

/-- Witness environment: the only matching candidate is unreachable. -/
def c6EnvBad : PineconeEnv :=
  { listResult := .ok ["pdf-deadbeef-1"],
    statsOf := fun _ => .error "index unreachable",
    openVS := fun _ => .ok () }

theorem claim6_is_pdf_processed_witness :
    is_pdf_processed c6Env "deadbeef" = true ∧
    is_pdf_processed c6EnvBad "deadbeef" ≠ true := by
  constructor
  · exact (claim6_is_pdf_processed c6Env "deadbeef"
      ["pdf-deadbeef-1", "pdf-deadbeef-2", "other-index"] rfl).mpr
      ⟨"pdf-deadbeef-2", by simp, by decide, 42, rfl, by omega⟩
  · intro htrue
    obtain ⟨nm, hmem, _, c, hst, _⟩ :=
      (claim6_is_pdf_processed c6EnvBad "deadbeef" ["pdf-deadbeef-1"] rfl).mp htrue
    have : nm = "pdf-deadbeef-1" := by simpa using hmem
    subst this
    simp [c6EnvBad] at hst

/-! ### `process_pdf` (claims C7, C10) -/

theorem exists_firstMatching_of_processed (env : PineconeEnv) (h : String)
    (names : List String) (hlist : env.listResult = .ok names)
    (hproc : is_pdf_processed env h = true) :
    ∃ m, firstMatching names ("pdf-" ++ h) = some m := by
  have hscan : scanIndexes env.statsOf ("pdf-" ++ h) names = true := by
    simpa [is_pdf_processed, hlist] using hproc
  obtain ⟨nm, hmem, hpfx, -⟩ := (scanIndexes_true_iff env.statsOf ("pdf-" ++ h) names).mp hscan
  have : (names.find? (fun n => pyStartsWith n ("pdf-" ++ h))).isSome := by
    rw [List.find?_isSome]
    exact ⟨nm, hmem, hpfx⟩
  obtain ⟨m, hm⟩ := Option.isSome_iff_exists.mp this
  exact ⟨m, hm⟩

/-- C7: for a document whose hash already has an existing non-empty remote
index (`is_pdf_processed` holds) and whose matching index opens
successfully, `process_pdf` short-circuits to the successful
"PDF already processed" result.  The second component `none` records that
the backoff pipeline was never entered — the conclusion holds for every
pipeline `f` — and index creation/deletion happen only inside pipeline
attempts, so no remote index is created or deleted. -/
theorem claim7_already_processed_short_circuit (env : PineconeEnv)
    (f : Nat → Except String PResult) (j : Nat → Rat) (h : String)
    (names : List String) (hlist : env.listResult = .ok names)
    (hproc : is_pdf_processed env h = true)
    (hopen : ∀ m, firstMatching names ("pdf-" ++ h) = some m → env.openVS m = .ok ()) :
    process_pdf env f j h =
      ({ success := true, message := some "PDF already processed",
         chunk_count := some 0, is_existing := true }, none) := by
  obtain ⟨m, hm⟩ := exists_firstMatching_of_processed env h names hlist hproc
  simp [process_pdf, hproc, hlist, hm, hopen m hm]

theorem claim7_already_processed_short_circuit_witness :
    process_pdf c6Env wAlwaysFail (fun _ => 0) "deadbeef" =
      ({ success := true, message := some "PDF already processed",
         chunk_count := some 0, is_existing := true }, none) :=
  claim7_already_processed_short_circuit c6Env wAlwaysFail (fun _ => 0) "deadbeef"
    ["pdf-deadbeef-1", "pdf-deadbeef-2", "other-index"] rfl (by decide)
    (fun m _ => rfl)

/-- Witness environment for C10: one matching non-empty index, but opening
a vectorstore handle on it fails. -/
def c10Env : PineconeEnv :=
  { listResult := .ok ["pdf-deadbeef-1"],
    statsOf := fun _ => .ok 3,
    openVS := fun _ => .error "vectorstore construction failed" }

/-- C10: when the document is detected as already processed but opening the
query handle on the first matching index fails, `process_pdf` does not
return an error: it silently falls back to the full reprocessing pipeline
and returns that reprocessing's result (with its retry trace). -/
theorem claim10_open_failure_falls_back (env : PineconeEnv)
    (f : Nat → Except String PResult) (j : Nat → Rat) (h : String)
    (names : List String) (m e : String)
    (hlist : env.listResult = .ok names)
    (hproc : is_pdf_processed env h = true)
    (hm : firstMatching names ("pdf-" ++ h) = some m)
    (hopen : env.openVS m = .error e) :
    process_pdf env f j h =
      ((process_pdf_with_exponential_backoff f j).1,
        some (process_pdf_with_exponential_backoff f j).2) := by
  simp [process_pdf, hproc, hlist, hm, hopen]

theorem claim10_open_failure_falls_back_witness :
    process_pdf c10Env (fun _ => .ok successR) (fun _ => 0) "deadbeef" =
      (successR, some (1, [])) := by
  have h := claim10_open_failure_falls_back c10Env (fun _ => .ok successR)
    (fun _ => 0) "deadbeef" ["pdf-deadbeef-1"] "pdf-deadbeef-1"
    "vectorstore construction failed" rfl (by decide) (by decide) rfl
  exact h.trans (by decide)

/-! ### `get_answer` source assembly (claim C2) -/

theorem extractSources_length_le (context : List LDoc) :
    (extractSources context).length ≤ 3 := by
  simp only [extractSources, List.length_map, List.length_take]
  omega

theorem get_answer_success_shape (env : AnswerEnv) (h : String)
    (hs : (get_answer env h).success = true) :
    ∃ ans ctx, env.chainResult = .ok (ans, ctx) ∧
      get_answer env h =
        { success := true, answer := some ans,
          sources := match ctx with
            | some docs => extractSources docs
            | none => [] } := by
  cases hcv : env.cachedVS with
  | true =>
    cases hch : env.chainResult with
    | ok p =>
      obtain ⟨ans, ctx⟩ := p
      exact ⟨ans, ctx, rfl, by simp [get_answer, hcv, hch]⟩
    | error e => rw [show (get_answer env h).success = false from by
        simp [get_answer, hcv, hch]] at hs; exact absurd hs (by simp)
  | false =>
    cases hl : env.pinecone.listResult with
    | error e => rw [show (get_answer env h).success = false from by
        simp [get_answer, hcv, hl]] at hs; exact absurd hs (by simp)
    | ok names =>
      cases hfm : firstMatching names ("pdf-" ++ h) with
      | none => rw [show (get_answer env h).success = false from by
          simp [get_answer, hcv, hl, hfm]] at hs; exact absurd hs (by simp)
      | some m =>
        cases hov : env.pinecone.openVS m with
        | error e => rw [show (get_answer env h).success = false from by
            simp [get_answer, hcv, hl, hfm, hov]] at hs; exact absurd hs (by simp)
        | ok u =>
          cases hch : env.chainResult with
          | ok p =>
            obtain ⟨ans, ctx⟩ := p
            exact ⟨ans, ctx, rfl, by simp [get_answer, hcv, hl, hfm, hov, hch]⟩
          | error e => rw [show (get_answer env h).success = false from by
              simp [get_answer, hcv, hl, hfm, hov, hch]] at hs; exact absurd hs (by simp)

/-- C2 (amended): every result of `get_answer` carries at most 3 source
entries; for a successful answer whose retrieval response carries a context
list, each entry is the first 200 characters of the retrieved chunk's text
with `"..."` appended unconditionally — also when the chunk text has at
most 200 characters — and the chunk's metadata attached unchanged. -/
theorem claim2_answer_sources (env : AnswerEnv) (h : String) :
    (get_answer env h).sources.length ≤ 3 ∧
    (∀ ans ctxdocs, env.chainResult = .ok (ans, some ctxdocs) →
      (get_answer env h).success = true →
      (get_answer env h).sources =
        (ctxdocs.take 3).map (fun d =>
          { content := pyTake d.page_content 200 ++ "...",
            metadata := d.metadata })) := by
  constructor
  · cases hcv : env.cachedVS with
    | true =>
      cases hch : env.chainResult with
      | ok p =>
        obtain ⟨ans, ctx⟩ := p
        cases ctx with
        | some docs =>
          rw [show (get_answer env h).sources = extractSources docs from by
            simp [get_answer, hcv, hch]]
          exact extractSources_length_le docs
        | none => simp [get_answer, hcv, hch]
      | error e => simp [get_answer, hcv, hch]
    | false =>
      cases hl : env.pinecone.listResult with
      | error e => simp [get_answer, hcv, hl]
      | ok names =>
        cases hfm : firstMatching names ("pdf-" ++ h) with
        | none => simp [get_answer, hcv, hl, hfm]
        | some m =>
          cases hov : env.pinecone.openVS m with
          | error e => simp [get_answer, hcv, hl, hfm, hov]
          | ok u =>
            cases hch : env.chainResult with
            | ok p =>
              obtain ⟨ans, ctx⟩ := p
              cases ctx with
              | some docs =>
                rw [show (get_answer env h).sources = extractSources docs from by
                  simp [get_answer, hcv, hl, hfm, hov, hch]]
                exact extractSources_length_le docs
              | none => simp [get_answer, hcv, hl, hfm, hov, hch]
            | error e => simp [get_answer, hcv, hl, hfm, hov, hch]
  · intro ans ctxdocs hch hs
    obtain ⟨ans2, ctx2, hch2, heq⟩ := get_answer_success_shape env h hs
    rw [hch] at hch2
    obtain ⟨rfl, rfl⟩ : ans = ans2 ∧ some ctxdocs = ctx2 := by
      have := hch2
      simp only [Except.ok.injEq, Prod.mk.injEq] at this
      exact ⟨this.1, this.2⟩
    rw [heq]
    rfl

/-- Witness environment for C2: the chain succeeds with one retrieved chunk
of only 3 characters. -/
def c2Env : AnswerEnv :=
  { cachedVS := true,
    pinecone :=
      { listResult := .ok [], statsOf := fun _ => .ok 0,
        openVS := fun _ => .ok () },
    chainResult := .ok ("the answer", some [{ page_content := "abc", metadata := [] }]) }

theorem claim2_answer_sources_witness :
    (get_answer c2Env "deadbeef").sources.length ≤ 3 ∧
    (get_answer c2Env "deadbeef").sources =
      [{ content := pyTake "abc" 200 ++ "...", metadata := [] }] := by
  refine ⟨(claim2_answer_sources c2Env "deadbeef").1, ?_⟩
  exact ((claim2_answer_sources c2Env "deadbeef").2 "the answer"
    [{ page_content := "abc", metadata := [] }] rfl rfl).trans rfl

/-- C2 counterexample: the retrieved chunk text `"abc"` has at most 200
characters, yet the returned excerpt is `"abc..."` — the ellipsis is
appended even though the original did not exceed 200 characters, refuting
the claimed "if and only if". -/
theorem claim2_counterexample :
    (get_answer c2Env "deadbeef").success = true ∧
    ("abc" : String).length ≤ 200 ∧
    (get_answer c2Env "deadbeef").sources =
      [{ content := "abc...", metadata := [] }] ∧
    "abc..." ≠ "abc" := by
  exact ⟨rfl, by decide, rfl, by decide⟩

/-! ### Metadata sanitization (claims C3, C5, C9) -/

/-- The key list of a metadata dict. -/
def dkeys (m : List (String × PyVal)) : List String := m.map Prod.fst

theorem dinsert_mem (m : List (String × PyVal)) (k : String) (v : PyVal) :
    ∀ kv, kv ∈ dinsert m k v → kv ∈ m ∨ kv = (k, v) := by
  induction m with
  | nil => intro kv hkv; simp [dinsert] at hkv; exact Or.inr hkv
  | cons p rest ih =>
    obtain ⟨k2, v2⟩ := p
    intro kv hkv
    by_cases hk : k2 = k
    · rw [dinsert, if_pos hk] at hkv
      rcases List.mem_cons.mp hkv with rfl | hmem
      · exact Or.inr rfl
      · exact Or.inl (List.mem_cons_of_mem _ hmem)
    · rw [dinsert, if_neg hk] at hkv
      rcases List.mem_cons.mp hkv with rfl | hmem
      · exact Or.inl (List.mem_cons_self _ _)
      · rcases ih kv hmem with h1 | h2
        · exact Or.inl (List.mem_cons_of_mem _ h1)
        · exact Or.inr h2

theorem dkeys_dinsert (m : List (String × PyVal)) (k : String) (v : PyVal) :
    dkeys (dinsert m k v) =
      if k ∈ dkeys m then dkeys m else dkeys m ++ [k] := by
  induction m with
  | nil => simp [dinsert, dkeys]
  | cons p rest ih =>
    obtain ⟨k2, v2⟩ := p
    by_cases hk : k2 = k
    · subst hk
      rw [dinsert, if_pos rfl]
      simp [dkeys]
    · rw [dinsert, if_neg hk]
      by_cases hmem : k ∈ dkeys rest
      · rw [show dkeys ((k2, v2) :: dinsert rest k v) = k2 :: dkeys (dinsert rest k v) from rfl]
        rw [ih, if_pos hmem]
        rw [show dkeys ((k2, v2) :: rest) = k2 :: dkeys rest from rfl]
        rw [if_pos (show k ∈ k2 :: dkeys rest from List.mem_cons.mpr (Or.inr hmem))]
      · rw [show dkeys ((k2, v2) :: dinsert rest k v) = k2 :: dkeys (dinsert rest k v) from rfl]
        rw [ih, if_neg hmem]
        rw [show dkeys ((k2, v2) :: rest) = k2 :: dkeys rest from rfl]
        rw [if_neg (show k ∉ k2 :: dkeys rest from fun hcons => by
          rcases List.mem_cons.mp hcons with rfl | hm
          · exact hk rfl
          · exact hmem hm)]
        rfl

theorem dinsert_of_not_mem (m : List (String × PyVal)) (k : String) (v : PyVal)
    (hk : k ∉ dkeys m) : dinsert m k v = m ++ [(k, v)] := by
  induction m with
  | nil => simp [dinsert]
  | cons p rest ih =>
    obtain ⟨k2, v2⟩ := p
    have hk2 : k2 ≠ k := by
      intro he; exact hk (by simp [dkeys, he])
    rw [dinsert, if_neg hk2, ih (fun hmem => hk (by simp [dkeys] at hmem ⊢; exact Or.inr hmem))]
    rfl

theorem sanitizeItems_keys_prefix :
    ∀ (l : List (String × PyVal)) (acc : List (String × PyVal)),
      dkeys acc <+: dkeys (sanitizeItems acc l) := by
  intro l
  induction l with
  | nil => intro acc; exact List.prefix_refl _
  | cons p rest ih =>
    obtain ⟨k, v⟩ := p
    intro acc
    rw [sanitizeItems]
    cases hcf : coerceField k v with
    | ok w =>
      refine List.IsPrefix.trans ?_ (ih (dinsert acc k w))
      rw [dkeys_dinsert]
      by_cases hmem : k ∈ dkeys acc
      · rw [if_pos hmem]
      · rw [if_neg hmem]; exact List.prefix_append _ _
    | error e => exact List.prefix_refl _

theorem sanitizeItems_keys_nodup :
    ∀ (l : List (String × PyVal)) (acc : List (String × PyVal)),
      (dkeys acc).Nodup → (dkeys (sanitizeItems acc l)).Nodup := by
  intro l
  induction l with
  | nil => intro acc h; exact h
  | cons p rest ih =>
    obtain ⟨k, v⟩ := p
    intro acc hnd
    rw [sanitizeItems]
    cases hcf : coerceField k v with
    | ok w =>
      refine ih (dinsert acc k w) ?_
      rw [dkeys_dinsert]
      by_cases hmem : k ∈ dkeys acc
      · rw [if_pos hmem]; exact hnd
      · rw [if_neg hmem]
        simp [List.nodup_append, hnd, hmem]
    | error e => exact hnd

theorem lookupd_isSome_iff (m : List (String × PyVal)) (k : String) :
    (lookupd m k).isSome = true ↔ k ∈ dkeys m := by
  induction m with
  | nil => simp [lookupd, dkeys]
  | cons p rest ih =>
    obtain ⟨k2, v2⟩ := p
    by_cases hk : k2 = k
    · subst hk; simp [lookupd, dkeys]
    · rw [lookupd, if_neg hk]
      rw [show dkeys ((k2, v2) :: rest) = k2 :: dkeys rest from rfl]
      simp only [List.mem_cons, ih]
      constructor
      · intro h; exact Or.inr h
      · rintro (rfl | h)
        · exact absurd rfl hk
        · exact h

theorem sanitizeItems_append_abort (k : String) (v : PyVal) (e : String)
    (post : List (String × PyVal)) (hk : coerceField k v = .error e) :
    ∀ (pre : List (String × PyVal)) (acc : List (String × PyVal)),
      (∀ kv ∈ pre, ∃ w, coerceField kv.1 kv.2 = .ok w) →
      sanitizeItems acc (pre ++ (k, v) :: post) = sanitizeItems acc pre := by
  intro pre
  induction pre with
  | nil =>
    intro acc _
    simp [sanitizeItems, hk]
  | cons p rest ih =>
    obtain ⟨k2, v2⟩ := p
    intro acc hpre
    obtain ⟨w, hw⟩ := hpre (k2, v2) (List.mem_cons_self _ _)
    simp only [List.cons_append, sanitizeItems, hw]
    exact ih (dinsert acc k2 w) (fun kv hkv => hpre kv (List.mem_cons_of_mem _ hkv))

/-- C5 (amended): an exception while coercing one metadata field does not
escape `sanitize_metadata` — the chunk always keeps its mandatory base
metadata (`pdf_hash`, `pdf_name`, `chunk_id`) and all fields coerced before
the failing one — but, because the `try` wraps the whole loop, the failing
field and every field after it are dropped rather than coerced or replaced
by defaults. -/
theorem claim5_field_failure_truncates (h n c : String)
    (pre post : List (String × PyVal)) (k : String) (v : PyVal) (e : String)
    (hpre : ∀ kv ∈ pre, ∃ w, coerceField kv.1 kv.2 = .ok w)
    (hk : coerceField k v = .error e) :
    sanitize_metadata h n c (pre ++ (k, v) :: post) = sanitize_metadata h n c pre ∧
    ∀ m2 : List (String × PyVal),
      (lookupd (sanitize_metadata h n c m2) "pdf_hash").isSome = true ∧
      (lookupd (sanitize_metadata h n c m2) "pdf_name").isSome = true ∧
      (lookupd (sanitize_metadata h n c m2) "chunk_id").isSome = true := by
  constructor
  · exact sanitizeItems_append_abort k v e post hk pre _ hpre
  · intro m2
    have hpfx := sanitizeItems_keys_prefix m2
      [("pdf_hash", .str h), ("pdf_name", .str n), ("chunk_id", .str c)]
    have hsub := hpfx.subset
    refine ⟨?_, ?_, ?_⟩ <;>
      [rw [lookupd_isSome_iff]; rw [lookupd_isSome_iff]; rw [lookupd_isSome_iff]] <;>
      exact hsub (by simp [dkeys])

/-- Witness metadata for C5: a field whose `str()` raises sits between two
well-behaved fields. -/
def c5Meta : List (String × PyVal) :=
  [("f1", .str "a"), ("bad", .obj "Widget" true true), ("f3", .str "b")]

theorem claim5_field_failure_truncates_witness :
    sanitize_metadata "deadbeef" "doc.pdf" "abcd1234"
        ([("f1", PyVal.str "a")] ++ ("bad", PyVal.obj "Widget" true true) :: [("f3", PyVal.str "b")]) =
      sanitize_metadata "deadbeef" "doc.pdf" "abcd1234" [("f1", PyVal.str "a")] ∧
    (lookupd (sanitize_metadata "deadbeef" "doc.pdf" "abcd1234" []) "pdf_hash").isSome = true ∧
    (lookupd (sanitize_metadata "deadbeef" "doc.pdf" "abcd1234" []) "pdf_name").isSome = true ∧
    (lookupd (sanitize_metadata "deadbeef" "doc.pdf" "abcd1234" []) "chunk_id").isSome = true := by
  have H := claim5_field_failure_truncates "deadbeef" "doc.pdf" "abcd1234"
    [("f1", PyVal.str "a")] [("f3", PyVal.str "b")] "bad"
    (PyVal.obj "Widget" true true) "str() raised for Widget"
    (by intro kv hkv; simp at hkv; subst hkv; exact ⟨PyVal.str "a", rfl⟩)
    rfl
  exact ⟨H.1, H.2 []⟩

/-- C5 counterexample: the field `f3` that follows the failing field `bad`
is absent from the sanitized mapping — it is neither coerced nor replaced
by a default, refuting "all other source-provided fields are still
coerced". -/
theorem claim5_counterexample :
    sanitize_metadata "deadbeef" "doc.pdf" "abcd1234" c5Meta =
      [("pdf_hash", PyVal.str "deadbeef"), ("pdf_name", PyVal.str "doc.pdf"),
       ("chunk_id", PyVal.str "abcd1234"), ("f1", PyVal.str "a")] ∧
    lookupd (sanitize_metadata "deadbeef" "doc.pdf" "abcd1234" c5Meta) "f3" = none ∧
    lookupd (sanitize_metadata "deadbeef" "doc.pdf" "abcd1234" c5Meta) "bad" = none := by
  exact ⟨rfl, rfl, rfl⟩

theorem string_length_data (s : String) : s.length = s.data.length := rfl

theorem pyTake_length (s : String) (n : Nat) :
    (pyTake s n).length = min n s.length := by
  show (s.data.take n).length = min n s.data.length
  exact List.length_take n s.data

theorem pyLen_append (a b : String) : (a ++ b).length = a.length + b.length := by
  show (a.data ++ b.data).length = a.data.length + b.data.length
  exact List.length_append a.data b.data

theorem pyTake_trunc_fixed (s : String) (h : 500 < s.length) :
    pyTake (pyTake s 500 ++ "...") 500 = pyTake s 500 := by
  show String.mk ((s.data.take 500 ++ ("...").data).take 500) = String.mk (s.data.take 500)
  refine congrArg String.mk (List.take_left' ?_)
  rw [List.length_take]
  rw [string_length_data] at h
  omega

/-- The per-key length cap on string values in sanitized metadata:
`dl_meta` is JSON-encoded and cut at 800, every other string value is at
most 503 characters (500 plus the `"..."` marker). -/
def strBound (k : String) : Nat := if k = "dl_meta" then 800 else 503

/-- The capped/flattened shape of one sanitized metadata value: a
string/number/boolean scalar (strings within the per-key cap), or a list of
at most 10 strings.  Nested dicts and arbitrary objects never survive
sanitization. -/
def conformant (k : String) : PyVal → Bool
  | .str s => decide (s.length ≤ strBound k)
  | .int _ => true
  | .float _ => true
  | .bool _ => true
  | .list xs => decide (xs.length ≤ 10) && xs.all PyVal.isStr
  | .dict _ => false
  | .obj _ _ _ => false

theorem coerceField_ok_conformant (k : String) (v w : PyVal)
    (hok : coerceField k v = .ok w) : conformant k w = true := by
  unfold coerceField at hok
  split at hok
  · -- k = "dl_meta"
    rename_i hkeq
    subst hkeq
    split at hok
    · -- truthy: JSON-encode and cut at 800
      split at hok
      · injection hok with hw
        subst hw
        simp [conformant, strBound, pyTake_length]
      · exact absurd hok (by simp)
    · -- falsy: empty string
      injection hok with hw
      subst hw
      simp [conformant, strBound]
  · rename_i hk
    split at hok
    · -- scalar pass-through
      rename_i hsc
      split at hok
      · -- string: truncate beyond 500
        injection hok with hw
        subst hw
        split
        · rename_i hlen
          simp only [conformant, decide_eq_true_eq]
          rw [pyLen_append, pyTake_length, strBound, if_neg hk]
          have h3 : ("..." : String).length = 3 := rfl
          omega
        · rename_i hlen
          simp only [conformant, decide_eq_true_eq]
          rw [strBound, if_neg hk]
          omega
      · -- any other scalar is returned unchanged
        injection hok with hw
        subst hw
        cases v with
        | int n => rfl
        | float q => rfl
        | bool b => rfl
        | str s => rename_i hne; exact absurd rfl (hne s)
        | list xs => exact absurd hsc (by simp [PyVal.isScalar])
        | dict kvs => exact absurd hsc (by simp [PyVal.isScalar])
        | obj r t sr => exact absurd hsc (by simp [PyVal.isScalar])
    · -- non-scalar
      split at hok
      · -- list
        split at hok
        · -- all-string list: cap at 10
          rename_i hall
          injection hok with hw
          subst hw
          simp only [conformant, Bool.and_eq_true, decide_eq_true_eq]
          constructor
          · rw [List.length_take]; omega
          · rw [List.all_eq_true] at hall ⊢
            intro x hx
            exact hall x (List.take_subset _ _ hx)
        · -- mixed list: stringified at 300 or empty
          split at hok
          · split at hok
            · injection hok with hw
              subst hw
              simp only [conformant, decide_eq_true_eq]
              rw [pyTake_length, strBound, if_neg hk]
              omega
            · exact absurd hok (by simp)
          · injection hok with hw
            subst hw
            simp [conformant, strBound]
      · -- dict / obj fallback: stringified at 300 or empty
        split at hok
        · split at hok
          · injection hok with hw
            subst hw
            simp only [conformant, decide_eq_true_eq]
            rw [pyTake_length, strBound, if_neg hk]
            omega
          · exact absurd hok (by simp)
        · injection hok with hw
          subst hw
          simp [conformant, strBound]

theorem sanitizeItems_mem_conformant :
    ∀ (l acc : List (String × PyVal)),
      (∀ kv ∈ acc, conformant kv.1 kv.2 = true) →
      ∀ kv ∈ sanitizeItems acc l, conformant kv.1 kv.2 = true := by
  intro l
  induction l with
  | nil => intro acc hacc kv hkv; exact hacc kv hkv
  | cons p rest ih =>
    obtain ⟨k, v⟩ := p
    intro acc hacc kv hkv
    rw [sanitizeItems] at hkv
    cases hcf : coerceField k v with
    | ok w =>
      rw [hcf] at hkv
      refine ih (dinsert acc k w) ?_ kv hkv
      intro kv2 hkv2
      rcases dinsert_mem acc k w kv2 hkv2 with hm | he
      · exact hacc kv2 hm
      · subst he
        exact coerceField_ok_conformant k v w hcf
    | error e =>
      rw [hcf] at hkv
      exact hacc kv hkv

/-- C9: every metadata mapping produced by `sanitize_metadata` conforms to
the capped/flattened shape: each value is a string/number/boolean scalar or
a list of at most 10 strings; the `dl_meta` value is a JSON string of at
most 800 characters and every other string value has at most 503 characters
(500 plus the `"..."` marker; stringified fallbacks are within 300 and so
within the cap).  The hypotheses bound the base fields the code attaches
unsanitized, and hold for the program's actual arguments: the hash is an
8-character truncated MD5 digest (app.py line 49), the chunk id an
8-character truncated UUID, and the name a file basename. -/
theorem claim9_sanitized_metadata_shape (h n c : String)
    (m : List (String × PyVal))
    (hh : h.length ≤ 500) (hn : n.length ≤ 500) (hc : c.length ≤ 500) :
    ∀ k v, (k, v) ∈ sanitize_metadata h n c m → conformant k v = true := by
  intro k v hmem
  refine sanitizeItems_mem_conformant m _ ?_ (k, v) hmem
  intro kv hkv
  simp only [List.mem_cons, List.not_mem_nil, or_false] at hkv
  rcases hkv with rfl | rfl | rfl
  · simp only [conformant, decide_eq_true_eq]
    rw [strBound, if_neg (by decide)]
    omega
  · simp only [conformant, decide_eq_true_eq]
    rw [strBound, if_neg (by decide)]
    omega
  · simp only [conformant, decide_eq_true_eq]
    rw [strBound, if_neg (by decide)]
    omega

/-- Witness metadata for C9: scalars, a string list, a nested `dl_meta`
dict, a long free-text field and a foreign nested dict. -/
def c9Meta : List (String × PyVal) :=
  [("page", .int 3),
   ("headings", .list [.str "a", .str "b"]),
   ("dl_meta", .dict [("schema", .str "docling")]),
   ("source", .str "file.pdf"),
   ("score", .float (1/2)),
   ("flag", .bool true),
   ("extra", .dict [("x", .int 1)])]

theorem claim9_sanitized_metadata_shape_witness :
    ((sanitize_metadata "deadbeef" "doc.pdf" "abcd1234" c9Meta).all
      (fun kv => conformant kv.1 kv.2)) = true := by
  have H := claim9_sanitized_metadata_shape "deadbeef" "doc.pdf" "abcd1234" c9Meta
    (by decide) (by decide) (by decide)
  rw [List.all_eq_true]
  intro kv hkv
  exact H kv.1 kv.2 hkv

theorem coerceField_str (k : String) (s : String) (hk : ¬k = "dl_meta") :
    coerceField k (.str s) =
      .ok (.str (if s.length > 500 then pyTake s 500 ++ "..." else s)) := by
  simp [coerceField, hk, PyVal.isScalar]

theorem coerceField_list_allstr (k : String) (xs : List PyVal)
    (hk : ¬k = "dl_meta") (hall : xs.all PyVal.isStr = true) :
    coerceField k (.list xs) = .ok (.list (xs.take 10)) := by
  simp [coerceField, hk, PyVal.isScalar, hall]

theorem coerceField_ok_fixed (k : String) (v w : PyVal)
    (hok : coerceField k v = .ok w)
    (hdl : k = "dl_meta" → v.truthy = false) :
    coerceField k w = .ok w := by
  have hok2 := hok
  unfold coerceField at hok
  split at hok
  · rename_i hkeq
    subst hkeq
    split at hok
    · rename_i ht
      rw [hdl rfl] at ht
      simp at ht
    · injection hok with hw
      subst hw
      rfl
  · rename_i hk
    split at hok
    · split at hok
      · -- string scalar
        rename_i s hsc2
        injection hok with hw
        subst hw
        by_cases hlen : s.length > 500
        · rw [if_pos hlen]
          have ht3 : (pyTake s 500 ++ "...").length = 503 := by
            rw [pyLen_append, pyTake_length]
            have h3 : ("..." : String).length = 3 := rfl
            omega
          rw [coerceField_str k _ hk]
          rw [if_pos (show (pyTake s 500 ++ "...").length > 500 by omega)]
          rw [pyTake_trunc_fixed s hlen]
        · rw [if_neg hlen]
          rw [coerceField_str k _ hk, if_neg hlen]
      · -- non-string scalar: returned unchanged
        injection hok with hw
        subst hw
        exact hok2
    · split at hok
      · -- list
        split at hok
        · rename_i hall
          injection hok with hw
          subst hw
          rw [coerceField_list_allstr k _ hk (by
            rw [List.all_eq_true] at hall ⊢
            intro x hx
            exact hall x (List.take_subset _ _ hx))]
          rw [List.take_take, Nat.min_self]
        · split at hok
          · split at hok
            · injection hok with hw
              subst hw
              rw [coerceField_str k _ hk]
              rw [if_neg (by rw [pyTake_length]; omega)]
            · exact absurd hok (by simp)
          · injection hok with hw
            subst hw
            rw [coerceField_str k _ hk]
            rw [if_neg (by decide)]
      · split at hok
        · split at hok
          · injection hok with hw
            subst hw
            rw [coerceField_str k _ hk]
            rw [if_neg (by rw [pyTake_length]; omega)]
          · exact absurd hok (by simp)
        · injection hok with hw
          subst hw
          rw [coerceField_str k _ hk]
          rw [if_neg (by decide)]

theorem sanitizeItems_mem_fixed :
    ∀ (l acc : List (String × PyVal)),
      (∀ kv ∈ acc, coerceField kv.1 kv.2 = .ok kv.2) →
      (∀ v, ("dl_meta", v) ∈ l → v.truthy = false) →
      ∀ kv ∈ sanitizeItems acc l, coerceField kv.1 kv.2 = .ok kv.2 := by
  intro l
  induction l with
  | nil => intro acc hacc _ kv hkv; exact hacc kv hkv
  | cons p rest ih =>
    obtain ⟨k, v⟩ := p
    intro acc hacc hdl kv hkv
    rw [sanitizeItems] at hkv
    cases hcf : coerceField k v with
    | ok w =>
      rw [hcf] at hkv
      refine ih (dinsert acc k w) ?_ (fun x hx => hdl x (List.mem_cons_of_mem _ hx)) kv hkv
      intro kv2 hkv2
      rcases dinsert_mem acc k w kv2 hkv2 with hm | he
      · exact hacc kv2 hm
      · subst he
        refine coerceField_ok_fixed k v w hcf ?_
        intro hkeq
        subst hkeq
        exact hdl v (List.mem_cons_self _ _)
    | error e =>
      rw [hcf] at hkv
      exact hacc kv hkv

theorem sanitizeItems_eq_foldl :
    ∀ (l acc : List (String × PyVal)),
      (∀ kv ∈ l, coerceField kv.1 kv.2 = .ok kv.2) →
      sanitizeItems acc l = l.foldl (fun a kv => dinsert a kv.1 kv.2) acc := by
  intro l
  induction l with
  | nil => intro acc _; rfl
  | cons p rest ih =>
    obtain ⟨k, v⟩ := p
    intro acc hfix
    have hhead := hfix (k, v) (List.mem_cons_self _ _)
    rw [sanitizeItems, hhead, List.foldl_cons]
    exact ih (dinsert acc k v) (fun kv hkv => hfix kv (List.mem_cons_of_mem _ hkv))

theorem foldl_dinsert_append :
    ∀ (rest acc : List (String × PyVal)),
      (dkeys rest).Nodup →
      (∀ key ∈ dkeys rest, key ∉ dkeys acc) →
      rest.foldl (fun a kv => dinsert a kv.1 kv.2) acc = acc ++ rest := by
  intro rest
  induction rest with
  | nil => intro acc _ _; simp
  | cons p tail ih =>
    obtain ⟨k, v⟩ := p
    intro acc hnd hdisj
    have hk : k ∉ dkeys acc := hdisj k (by simp [dkeys])
    rw [List.foldl_cons]
    rw [show dinsert acc (k, v).1 (k, v).2 = dinsert acc k v from rfl]
    rw [dinsert_of_not_mem acc k v hk]
    rw [show dkeys ((k, v) :: tail) = k :: dkeys tail from rfl] at hnd
    obtain ⟨hknotin, hndtail⟩ := List.nodup_cons.mp hnd
    rw [ih (acc ++ [(k, v)]) hndtail ?_]
    · rw [List.append_assoc]
      rfl
    · intro key hkey hmem
      rw [show dkeys (acc ++ [(k, v)]) = dkeys acc ++ [k] from by simp [dkeys]] at hmem
      rcases List.mem_append.mp hmem with hin | hin
      · exact hdisj key (List.mem_cons_of_mem _ hkey) hin
      · rw [List.mem_singleton] at hin
        subst hin
        exact hknotin hkey

theorem dict_shape_of_keys (m1 : List (String × PyVal)) (k1 k2 k3 : String)
    (ks : List String) (h : dkeys m1 = k1 :: k2 :: k3 :: ks) :
    ∃ a b c rest, m1 = (k1, a) :: (k2, b) :: (k3, c) :: rest ∧ dkeys rest = ks := by
  match m1 with
  | [] => simp [dkeys] at h
  | [p] => simp [dkeys] at h
  | [p, q] => simp [dkeys] at h
  | (x1, a) :: (x2, b) :: (x3, c) :: rest =>
    simp only [dkeys, List.map_cons, List.cons.injEq] at h
    refine ⟨a, b, c, rest, ?_, h.2.2.2⟩
    rw [h.1, h.2.1, h.2.2.1]

/-- C3 (amended): sanitization is idempotent except through the `dl_meta`
field: re-sanitizing an already-sanitized metadata mapping (same hash and
name; the freshly drawn chunk id `c2` is immediately overwritten, because
the copy loop re-inserts the first pass's `chunk_id` field) returns the
identical mapping whenever every `dl_meta` field of the original metadata
is absent or falsy.  (A truthy `dl_meta` is JSON-encoded a second time and
changes — see the counterexample.)  The length hypotheses keep the base
fields below the 500-character truncation threshold; the program's actual
arguments are an 8-character hash, a file basename and an 8-character
chunk id. -/
theorem claim3_sanitize_idempotent_up_to_dl_meta (h n c1 c2 : String)
    (m : List (String × PyVal))
    (hh : h.length ≤ 500) (hn : n.length ≤ 500) (hc : c1.length ≤ 500)
    (hdl : ∀ v, ("dl_meta", v) ∈ m → v.truthy = false) :
    sanitize_metadata h n c2 (sanitize_metadata h n c1 m) =
      sanitize_metadata h n c1 m := by
  have hbase : ∀ kv ∈ ([("pdf_hash", PyVal.str h), ("pdf_name", PyVal.str n),
      ("chunk_id", PyVal.str c1)] : List (String × PyVal)),
      coerceField kv.1 kv.2 = .ok kv.2 := by
    intro kv hkv
    simp only [List.mem_cons, List.not_mem_nil, or_false] at hkv
    rcases hkv with rfl | rfl | rfl
    · show coerceField "pdf_hash" (PyVal.str h) = .ok (PyVal.str h)
      rw [coerceField_str _ _ (by decide), if_neg (by omega)]
    · show coerceField "pdf_name" (PyVal.str n) = .ok (PyVal.str n)
      rw [coerceField_str _ _ (by decide), if_neg (by omega)]
    · show coerceField "chunk_id" (PyVal.str c1) = .ok (PyVal.str c1)
      rw [coerceField_str _ _ (by decide), if_neg (by omega)]
  have hfix : ∀ kv ∈ sanitize_metadata h n c1 m, coerceField kv.1 kv.2 = .ok kv.2 :=
    sanitizeItems_mem_fixed m _ hbase hdl
  have hnodup : (dkeys (sanitize_metadata h n c1 m)).Nodup :=
    sanitizeItems_keys_nodup m
      [("pdf_hash", PyVal.str h), ("pdf_name", PyVal.str n), ("chunk_id", PyVal.str c1)]
      (by rw [show dkeys [("pdf_hash", PyVal.str h), ("pdf_name", PyVal.str n),
        ("chunk_id", PyVal.str c1)] = ["pdf_hash", "pdf_name", "chunk_id"] from rfl]
          decide)
  obtain ⟨tl, htl⟩ := sanitizeItems_keys_prefix m
    [("pdf_hash", PyVal.str h), ("pdf_name", PyVal.str n), ("chunk_id", PyVal.str c1)]
  obtain ⟨a, b, d, rest, hm1, hks⟩ := dict_shape_of_keys (sanitize_metadata h n c1 m)
    "pdf_hash" "pdf_name" "chunk_id" tl
    (by
      rw [show dkeys (sanitize_metadata h n c1 m) =
        dkeys (sanitizeItems [("pdf_hash", PyVal.str h), ("pdf_name", PyVal.str n),
          ("chunk_id", PyVal.str c1)] m) from rfl, ← htl]
      simp [dkeys])
  rw [hm1] at hnodup
  rw [show dkeys (("pdf_hash", a) :: ("pdf_name", b) :: ("chunk_id", d) :: rest) =
    "pdf_hash" :: "pdf_name" :: "chunk_id" :: dkeys rest from rfl] at hnodup
  obtain ⟨h1, hnd2⟩ := List.nodup_cons.mp hnodup
  obtain ⟨h2, hnd3⟩ := List.nodup_cons.mp hnd2
  obtain ⟨h3, hnd4⟩ := List.nodup_cons.mp hnd3
  have hstep : sanitize_metadata h n c2 (sanitize_metadata h n c1 m) =
      (sanitize_metadata h n c1 m).foldl (fun a2 kv => dinsert a2 kv.1 kv.2)
        [("pdf_hash", PyVal.str h), ("pdf_name", PyVal.str n),
         ("chunk_id", PyVal.str c2)] :=
    sanitizeItems_eq_foldl _ _ hfix
  rw [hstep, hm1]
  rw [List.foldl_cons, List.foldl_cons, List.foldl_cons]
  rw [show dinsert (dinsert (dinsert
      [("pdf_hash", PyVal.str h), ("pdf_name", PyVal.str n), ("chunk_id", PyVal.str c2)]
      ("pdf_hash", a).1 ("pdf_hash", a).2)
      ("pdf_name", b).1 ("pdf_name", b).2)
      ("chunk_id", d).1 ("chunk_id", d).2 =
    [("pdf_hash", a), ("pdf_name", b), ("chunk_id", d)] from rfl]
  rw [foldl_dinsert_append rest [("pdf_hash", a), ("pdf_name", b), ("chunk_id", d)]
    hnd4 ?_]
  · rfl
  · intro key hkey hmem
    rw [show dkeys [("pdf_hash", a), ("pdf_name", b), ("chunk_id", d)] =
      ["pdf_hash", "pdf_name", "chunk_id"] from rfl] at hmem
    simp only [List.mem_cons, List.not_mem_nil, or_false] at hmem
    rcases hmem with rfl | rfl | rfl
    · exact h1 (List.mem_cons_of_mem _ (List.mem_cons_of_mem _ hkey))
    · exact h2 (List.mem_cons_of_mem _ hkey)
    · exact h3 hkey

/-- Witness metadata for C3 without a `dl_meta` field. -/
def c3GoodMeta : List (String × PyVal) :=
  [("page", .int 3), ("headings", .list [.str "a", .str "b"]),
   ("source", .str "file.pdf")]

theorem claim3_sanitize_idempotent_up_to_dl_meta_witness :
    sanitize_metadata "deadbeef" "doc.pdf" "bbbb5678"
        (sanitize_metadata "deadbeef" "doc.pdf" "aaaa1234" c3GoodMeta) =
      sanitize_metadata "deadbeef" "doc.pdf" "aaaa1234" c3GoodMeta := by
  refine claim3_sanitize_idempotent_up_to_dl_meta "deadbeef" "doc.pdf"
    "aaaa1234" "bbbb5678" c3GoodMeta (by decide) (by decide) (by decide) ?_
  intro v hv
  exact absurd hv (by simp [c3GoodMeta])

/-- Metadata with a truthy nested `dl_meta` field. -/
def c3Meta : List (String × PyVal) :=
  [("dl_meta", .dict [("schema", .str "docling")])]

/-- Projection used to exhibit the differing `dl_meta` values. -/
def pyvalStr? : Option PyVal → Option String
  | some (.str s) => some s
  | _ => none

/-- C3 counterexample: with a truthy `dl_meta` field, re-sanitizing an
already-sanitized metadata mapping JSON-encodes the already-encoded
`dl_meta` string a second time, so the mapping changes — sanitization is
not idempotent as claimed. -/
theorem claim3_counterexample :
    sanitize_metadata "deadbeef" "doc.pdf" "bbbb5678"
        (sanitize_metadata "deadbeef" "doc.pdf" "aaaa1234" c3Meta) ≠
      sanitize_metadata "deadbeef" "doc.pdf" "aaaa1234" c3Meta :=
  fun heq =>
    absurd (congrArg (fun l => pyvalStr? (lookupd l "dl_meta")) heq) (by decide)
